import Mathlib

/-!
Verification development for the iota transcript-to-structured-output pipeline.

Strings are embedded as lists of characters; Python string operations
(strip, lower, find, splitlines, startswith) are reimplemented faithfully
over that representation. Stateful and I/O-bound code is embedded as pure
functions over the values the code branches on, with fallible operations
returning an Except value.
-/

namespace Iota

/-! ## Python string primitives -/

/-- Whitespace predicate of Python str.strip with no arguments. -/
def pyIsSpace (c : Char) : Bool :=
  c = ' ' || c = '\t' || c = '\n' || c = '\r' || c = '\x0b' || c = '\x0c'

/-- Python str.lstrip() with no arguments. -/
def pyLstrip (s : List Char) : List Char := s.dropWhile pyIsSpace

/-- Python str.rstrip() with no arguments. -/
def pyRstrip (s : List Char) : List Char := (s.reverse.dropWhile pyIsSpace).reverse

/-- Python str.strip() with no arguments. -/
def pyStrip (s : List Char) : List Char := pyRstrip (pyLstrip s)

/-- Python str.lower restricted to character-wise ASCII lowering. -/
def toLowerL (s : List Char) : List Char := s.map Char.toLower

/-- Python str.find: index of the first occurrence of pat, as an Option
instead of the -1 sentinel. -/
def pyFind (pat : List Char) : List Char → Option Nat
  | [] => if pat.isPrefixOf ([] : List Char) then some 0 else none
  | c :: cs =>
    if pat.isPrefixOf (c :: cs) then some 0
    else (pyFind pat cs).map (· + 1)

/-- Python str.splitlines restricted to the line breaks that can appear in
this pipeline: a newline, a carriage return, or the pair of both. -/
def pySplitlines : List Char → List (List Char)
  | [] => []
  | '\n' :: cs => [] :: pySplitlines cs
  | ['\r'] => [[]]
  | '\r' :: '\n' :: cs => [] :: pySplitlines cs
  | '\r' :: c :: cs => [] :: pySplitlines (c :: cs)
  | c :: cs =>
    match pySplitlines cs with
    | [] => [[c]]
    | l :: ls => (c :: l) :: ls

/-- Python "\n".join. -/
def joinLines : List (List Char) → List Char
  | [] => []
  | [l] => l
  | l :: l2 :: ls => l ++ '\n' :: joinLines (l2 :: ls)

/-- Python str.lstrip("- "): drop leading dash and space characters. -/
def lstripDashSpace (s : List Char) : List Char :=
  s.dropWhile (fun c => c = '-' || c = ' ')

/-- Python truthiness-based defaulting: value or default, where None and
the empty string select the default. -/
def pyOr (a : Option (List Char)) (dflt : List Char) : List Char :=
  match a with
  | some s => if s = [] then dflt else s
  | none => dflt

/-! ## Summarization module (src/summarization.py) -/

/-- The canonical heading line emitted by summary normalization. -/
def headingLine : List Char := ("Summary:").toList

/-- The per-line loop of normalize-summary: strip each line, drop blank
lines, pass the heading line through, and bullet-prefix everything else. -/
def bulletizeLines : List (List Char) → List (List Char)
  | [] => []
  | line :: rest =>
    if pyStrip line = [] then bulletizeLines rest
    else if toLowerL (pyStrip line) = ("summary:").toList then
      headingLine :: bulletizeLines rest
    else if (pyStrip line).head? = some '-' then
      pyStrip line :: bulletizeLines rest
    else
      ('-' :: ' ' :: lstripDashSpace (pyStrip line)) :: bulletizeLines rest

/-- The heading-prepending step of normalize-summary: prepend a heading
line unless the text already starts with the heading token, compared
case-insensitively. -/
def withHeading (summary : List Char) : List Char :=
  if (("summary").toList).isPrefixOf (toLowerL summary) then summary
  else ("Summary:").toList ++ '\n' :: summary

/-- Embedding of the private normalize-summary helper of
src/summarization.py. -/
def normalize_summary (summary_raw : List Char) : List Char :=
  if pyStrip summary_raw = [] then ("Summary:\n- N/A").toList
  else joinLines (bulletizeLines (pySplitlines (withHeading (pyStrip summary_raw))))

/-- Embedding of the private split-summary-answer helper of
src/summarization.py: split the raw reply on the first case-insensitive
occurrence of the literal substring answer-colon. The literal has length
seven. -/
def split_summary_answer (response_text : List Char) : List Char × List Char :=
  match pyFind (("answer:").toList) (toLowerL response_text) with
  | none => (normalize_summary response_text, ("N/A").toList)
  | some answer_idx =>
    (normalize_summary (pyStrip (response_text.take answer_idx)),
      if pyStrip (response_text.drop (answer_idx + 7)) = [] then ("N/A").toList
      else pyStrip (response_text.drop (answer_idx + 7)))

/-- Result record of the summarization client. -/
structure SummaryResult where
  summary : List Char
  answer : List Char
  model : List Char
deriving DecidableEq, Repr

/-- The uniform summarization failure condition. -/
inductive SummarizationError where
  | failed (msg : List Char)
deriving DecidableEq, Repr

/-- Embedding of the reply-handling tail of summarize-with-ollama: the raw
reply body is the response field of the backend JSON, absent modeled as
none and defaulted to the empty string; an empty stripped reply raises,
otherwise the reply is split into summary and answer. -/
def summarize_handle_reply (target_model : List Char) (reply : Option (List Char)) :
    Except SummarizationError SummaryResult :=
  if pyStrip (reply.getD []) = [] then
    .error (.failed (("Summarizer returned empty response").toList))
  else
    .ok ⟨(split_summary_answer (pyStrip (reply.getD []))).1,
      (split_summary_answer (pyStrip (reply.getD []))).2, target_model⟩

/-! ## Transcription module (src/transcription.py) -/

/-- Container for transcription outputs. -/
structure TranscriptionResult where
  text : List Char
  language : Option (List Char)
deriving DecidableEq, Repr

/-- The uniform transcription failure condition. -/
inductive SpeechToTextError where
  | failed (msg : List Char)
deriving DecidableEq, Repr

/-- Embedding of the response-handling tail of
OpenAIWhisperTranscriber.transcribe: the text attribute of the backend
response, absent modeled as none; a missing or empty text raises, any
other text is returned unchanged. The Python guard is a truthiness test,
so only None and the empty string raise. -/
def openai_transcribe_finish (text : Option (List Char)) (language : Option (List Char)) :
    Except SpeechToTextError TranscriptionResult :=
  match text with
  | none => .error (.failed (("No transcription text returned").toList))
  | some t =>
    if t = [] then .error (.failed (("No transcription text returned").toList))
    else .ok ⟨t, language⟩

/-- Embedding of the result-handling tail of
WhisperLocalTranscriber.transcribe: the text field of the backend result
dict, absent defaulted to the empty string, is stripped; an empty stripped
text raises, otherwise the stripped text is returned. -/
def whisper_local_finish (text : Option (List Char)) (language : Option (List Char)) :
    Except SpeechToTextError TranscriptionResult :=
  if pyStrip (text.getD []) = [] then
    .error (.failed (("Whisper returned empty transcription").toList))
  else .ok ⟨pyStrip (text.getD []), language⟩

/-- Audio buffers as passed to the local-model variant: a one-dimensional
sample list or a frames-times-channels matrix. Samples are embedded as
rationals, so the dtype-preserving cast of the source is value-preserving
here. -/
inductive AudioBuffer where
  | oneD (samples : List ℚ)
  | twoD (frames : List (List ℚ))
deriving DecidableEq, Repr

/-- Mean of one frame across its channels, as numpy mean over axis 1. -/
def frameMean (f : List ℚ) : ℚ := f.sum / (f.length : ℚ)

/-- Embedding of the mono-collapse preprocessing of
WhisperLocalTranscriber.transcribe: a multi-dimensional buffer is averaged
across channels, a one-dimensional buffer is passed through the squeeze
unchanged. -/
def monoCollapse : AudioBuffer → List ℚ
  | .oneD samples => samples
  | .twoD frames => frames.map frameMean

/-! ## Tokenization module (src/tokenization.py) -/

/-- An encoding as the tiktoken collaborator exposes it: a name and a pair
of encode and decode functions. The library itself is external to the
repository; its registry is a parameter of the embedding. -/
structure Encoding where
  ename : List Char
  encodeFn : List Char → List Nat
  decodeFn : List Nat → List Char

/-- The tiktoken registry: get-encoding resolves an encoding name,
encoding-for-model resolves a model name, each returning none where the
library raises for an unknown name. -/
structure TiktokenEnv where
  getEncoding : List Char → Option Encoding
  encodingForModel : List Char → Option Encoding

/-- Failure conditions of tokenizer construction: an unrecognized explicit
encoding name, or the impossible case of the registry lacking the fixed
fallback encoding. -/
inductive TokenizerInitError where
  | unknownEncoding (ename : List Char)
  | noBaseEncoding

/-- Bundle of encoded ids with metadata. -/
structure TokenizationResult where
  tokens : List Nat
  encoding_name : List Char
deriving DecidableEq, Repr

/-- Derived token count of a TokenizationResult. -/
def TokenizationResult.count (r : TokenizationResult) : Nat := r.tokens.length

/-- The model-name path of LLMTokenizer construction: resolve the model
name, explicit or defaulted, and on an unknown model fall back to the
fixed general-purpose encoding. -/
def tokenizer_from_model (env : TiktokenEnv) (model : Option (List Char)) :
    Except TokenizerInitError Encoding :=
  match env.encodingForModel (pyOr model (("gpt-4o-mini").toList)) with
  | some enc => .ok enc
  | none =>
    match env.getEncoding (("cl100k_base").toList) with
    | some enc => .ok enc
    | none => .error .noBaseEncoding

/-- Embedding of LLMTokenizer construction: a supplied non-empty encoding
name is used verbatim and fails fast when unrecognized; otherwise the
model-name path runs. The Python guard is a truthiness test, so an empty
encoding name also selects the model-name path. -/
def llm_tokenizer_init (env : TiktokenEnv) (model encoding_name : Option (List Char)) :
    Except TokenizerInitError Encoding :=
  match encoding_name with
  | some e =>
    if e = [] then tokenizer_from_model env model
    else
      match env.getEncoding e with
      | some enc => .ok enc
      | none => .error (.unknownEncoding e)
  | none => tokenizer_from_model env model

/-- The constructed tokenizer: the selected encoding together with the
encoding-name attribute copied from it. -/
structure LLMTokenizer where
  encoding : Encoding
  encoding_name : List Char

/-- Wrap a selected encoding as the constructor does, recording its name. -/
def mkLLMTokenizer (enc : Encoding) : LLMTokenizer := ⟨enc, enc.ename⟩

/-- Embedding of LLMTokenizer.encode. -/
def LLMTokenizer.encode (tok : LLMTokenizer) (text : List Char) : TokenizationResult :=
  ⟨tok.encoding.encodeFn text, tok.encoding_name⟩

/-- Embedding of LLMTokenizer.decode. -/
def LLMTokenizer.decode (tok : LLMTokenizer) (tokens : List Nat) : List Char :=
  tok.encoding.decodeFn tokens

/-- A concrete registry inhabitant used to discharge hypotheses on
concrete inputs: one encoding that maps each character to its code point. -/
def charEncoding : Encoding :=
  ⟨("cl100k_base").toList, fun t => t.map Char.toNat, fun ns => ns.map Char.ofNat⟩

/-- A concrete tiktoken registry that knows only the fallback encoding and
no model names. -/
def tinyEnv : TiktokenEnv :=
  ⟨fun e => if e = ("cl100k_base").toList then some charEncoding else none, fun _ => none⟩

/-! ## Orchestrators (src/app.py main and src/web_server.py transcribe_audio) -/

/-- Outcome of a summarization attempt, as observed by an orchestrator. -/
inductive SummarizeOutcome where
  | ok (r : SummaryResult)
  | err (e : SummarizationError)
deriving DecidableEq, Repr

/-- An HTTP error response raised by the web server. -/
structure HTTPError where
  status : Nat
  detail : List Char
deriving DecidableEq, Repr

/-- The JSON body of a successful transcribe endpoint response. -/
structure TranscriptionResponse where
  transcript : List Char
  language : Option (List Char)
  tokens : List Nat
  token_count : Nat
  encoding_name : List Char
  summary : Option (List Char)
  answer : Option (List Char)
deriving DecidableEq, Repr

/-- Embedding of the web server form-field boolean parser. -/
def normalize_bool (value : Option (List Char)) : Bool :=
  match value with
  | none => false
  | some v =>
    ((["true", "1", "yes", "on"].map String.toList).contains (toLowerL v))

/-- Embedding of the tail of the transcribe endpoint of src/web_server.py,
after transcription and tokenization have succeeded: when summarization is
requested and fails, the handler re-raises the failure as an HTTP 502
error, aborting the request; otherwise it returns the consolidated
response body. -/
def web_finish_response (transcription : TranscriptionResult)
    (token_result : TokenizationResult) (summarize : Option (List Char))
    (outcome : SummarizeOutcome) : Except HTTPError TranscriptionResponse :=
  if normalize_bool summarize then
    match outcome with
    | .err (.failed msg) => .error ⟨502, msg⟩
    | .ok s =>
      .ok ⟨transcription.text, transcription.language, token_result.tokens,
        token_result.count, token_result.encoding_name, some s.summary, some s.answer⟩
  else
    .ok ⟨transcription.text, transcription.language, token_result.tokens,
      token_result.count, token_result.encoding_name, none, none⟩

/-- Observable outcome of the CLI main tail: the process exit code, the
summary and answer logged on success, and the error logged on failure. -/
structure CliOutcome where
  exitCode : Int
  loggedSummary : Option (List Char × List Char)
  loggedError : Option (List Char)
deriving DecidableEq, Repr

/-- Embedding of the tail of main in src/app.py, after transcription and
tokenization have succeeded: a summarization failure is caught and logged,
and main still returns exit code zero. -/
def cli_finish (summarize : Bool) (outcome : SummarizeOutcome) : CliOutcome :=
  if summarize then
    match outcome with
    | .err (.failed msg) => ⟨0, none, some msg⟩
    | .ok s => ⟨0, some (s.summary, s.answer), none⟩
  else ⟨0, none, none⟩

/-! ## Provider selection (src/app.py build_transcriber and
src/web_server.py select-transcriber) -/

/-- The transcriber variant selected, with its configuration, before any
backend construction work happens. -/
inductive TranscriberChoice where
  | openaiT (model : Option (List Char))
  | whisperLocalT (model_name : List Char)
deriving DecidableEq, Repr

/-- The configuration error raised by build_transcriber in src/app.py. -/
inductive ConfigError where
  | unsupportedProvider (msg : List Char)
deriving DecidableEq, Repr

/-- Embedding of build_transcriber of src/app.py. -/
def build_transcriber (provider : List Char) (openai_model : Option (List Char))
    (whisper_model : List Char) : Except ConfigError TranscriberChoice :=
  if provider = ("openai").toList then .ok (.openaiT openai_model)
  else if provider = ("whisper-local").toList then .ok (.whisperLocalT whisper_model)
  else .error (.unsupportedProvider (("Unsupported provider: ").toList ++ provider))

/-- Embedding of the private select-transcriber helper of
src/web_server.py, including its or-None and or-base defaulting. -/
def select_transcriber (provider : List Char)
    (openai_model whisper_model : Option (List Char)) :
    Except HTTPError TranscriberChoice :=
  if provider = ("openai").toList then
    .ok (.openaiT (match openai_model with
      | some m => if m = [] then none else some m
      | none => none))
  else if provider = ("whisper-local").toList then
    .ok (.whisperLocalT (pyOr whisper_model (("base").toList)))
  else .error ⟨400, ("Unsupported provider: ").toList ++ provider⟩

/-! ## Helper lemmas on dropWhile and the strip operations -/

lemma dropWhile_self {α : Type} (p : α → Bool) :
    ∀ (l : List α), (l.dropWhile p).dropWhile p = l.dropWhile p := by
  intro l
  induction l with
  | nil => rfl
  | cons d ds ih =>
    rw [List.dropWhile_cons]
    by_cases hd : p d = true
    · rw [if_pos hd]; exact ih
    · rw [if_neg hd, List.dropWhile_cons, if_neg hd]

lemma mem_of_mem_dropWhile {α : Type} (p : α → Bool) :
    ∀ (l : List α) (a : α), a ∈ l.dropWhile p → a ∈ l := by
  intro l
  induction l with
  | nil => intro a h; simp at h
  | cons d ds ih =>
    intro a h
    rw [List.dropWhile_cons] at h
    by_cases hd : p d = true
    · rw [if_pos hd] at h
      exact List.mem_cons_of_mem d (ih a h)
    · rw [if_neg hd] at h
      exact h

lemma head_dropWhile_false {α : Type} (p : α → Bool) :
    ∀ (l : List α) (a : α), (l.dropWhile p).head? = some a → p a = false := by
  intro l
  induction l with
  | nil => intro a h; simp at h
  | cons d ds ih =>
    intro a h
    rw [List.dropWhile_cons] at h
    by_cases hd : p d = true
    · rw [if_pos hd] at h
      exact ih a h
    · rw [if_neg hd] at h
      obtain rfl : d = a := by simpa using h
      exact Bool.eq_false_iff.mpr hd

lemma dropWhile_of_head_false {α : Type} (p : α → Bool) (l : List α) (a : α)
    (h : l.head? = some a) (ha : p a = false) : l.dropWhile p = l := by
  cases l with
  | nil => cases h
  | cons d ds =>
    obtain rfl : d = a := by simpa using h
    rw [List.dropWhile_cons, if_neg (by simp [ha])]

lemma pyLstrip_eq_nil_iff (l : List Char) :
    pyLstrip l = [] ↔ ∀ c ∈ l, pyIsSpace c = true := by
  rw [pyLstrip]
  exact List.dropWhile_eq_nil_iff

lemma mem_of_mem_pyLstrip (l : List Char) (c : Char) (h : c ∈ pyLstrip l) : c ∈ l :=
  mem_of_mem_dropWhile pyIsSpace l c h

lemma head_pyLstrip (l : List Char) (c : Char)
    (h : (pyLstrip l).head? = some c) : pyIsSpace c = false :=
  head_dropWhile_false pyIsSpace l c h

lemma pyRstrip_append (l : List Char) : ∃ t, pyRstrip l ++ t = l := by
  refine ⟨(l.reverse.takeWhile pyIsSpace).reverse, ?_⟩
  rw [pyRstrip, ← List.reverse_append, List.takeWhile_append_dropWhile, List.reverse_reverse]

lemma head_pyRstrip (l : List Char) (c : Char)
    (h : (pyRstrip l).head? = some c) : l.head? = some c := by
  obtain ⟨t, ht⟩ := pyRstrip_append l
  cases hr : pyRstrip l with
  | nil => rw [hr] at h; cases h
  | cons a r =>
    rw [hr] at h ht
    obtain rfl : a = c := by simpa using h
    rw [← ht]
    rfl

lemma mem_of_mem_pyRstrip (l : List Char) (c : Char) (h : c ∈ pyRstrip l) : c ∈ l := by
  rw [pyRstrip, List.mem_reverse] at h
  exact List.mem_reverse.mp (mem_of_mem_dropWhile pyIsSpace l.reverse c h)

lemma pyRstrip_eq_nil_iff (l : List Char) :
    pyRstrip l = [] ↔ ∀ c ∈ l, pyIsSpace c = true := by
  rw [pyRstrip]
  constructor
  · intro h c hc
    have h2 : l.reverse.dropWhile pyIsSpace = [] := by
      simpa using congrArg List.reverse h
    exact List.dropWhile_eq_nil_iff.mp h2 c (List.mem_reverse.mpr hc)
  · intro h
    have h2 : l.reverse.dropWhile pyIsSpace = [] :=
      List.dropWhile_eq_nil_iff.mpr (fun c hc => h c (List.mem_reverse.mp hc))
    simp [h2]

lemma pyRstrip_idem (l : List Char) : pyRstrip (pyRstrip l) = pyRstrip l := by
  simp only [pyRstrip, List.reverse_reverse, dropWhile_self]

lemma pyStrip_eq_nil_iff (l : List Char) :
    pyStrip l = [] ↔ ∀ c ∈ l, pyIsSpace c = true := by
  rw [pyStrip, pyRstrip_eq_nil_iff]
  constructor
  · intro h c hc
    have hsplit : l.takeWhile pyIsSpace ++ pyLstrip l = l :=
      List.takeWhile_append_dropWhile pyIsSpace l
    rw [← hsplit] at hc
    rcases List.mem_append.mp hc with hh | hh
    · exact List.mem_takeWhile_imp hh
    · exact h c hh
  · intro h c hc
    exact h c (mem_of_mem_pyLstrip l c hc)

lemma mem_of_mem_pyStrip (l : List Char) (c : Char) (h : c ∈ pyStrip l) : c ∈ l :=
  mem_of_mem_pyLstrip l c (mem_of_mem_pyRstrip (pyLstrip l) c h)

lemma head_pyStrip (l : List Char) (c : Char)
    (h : (pyStrip l).head? = some c) : pyIsSpace c = false :=
  head_pyLstrip l c (head_pyRstrip (pyLstrip l) c h)

lemma pyStrip_idem (l : List Char) : pyStrip (pyStrip l) = pyStrip l := by
  cases h : (pyStrip l).head? with
  | none =>
    have h0 : pyStrip l = [] := by
      cases hl : pyStrip l with
      | nil => rfl
      | cons a r => rw [hl] at h; cases h
    rw [h0]
    rfl
  | some c =>
    have hc := head_pyStrip l c h
    show pyRstrip (pyLstrip (pyStrip l)) = pyStrip l
    rw [pyLstrip, dropWhile_of_head_false pyIsSpace (pyStrip l) c h hc]
    show pyRstrip (pyRstrip (pyLstrip l)) = pyStrip l
    rw [pyRstrip_idem]
    rfl

lemma pyStrip_ne_nil_of_mem (l : List Char) (c : Char)
    (hc : c ∈ l) (hs : pyIsSpace c = false) : pyStrip l ≠ [] := by
  intro h
  have h2 := (pyStrip_eq_nil_iff l).mp h c hc
  rw [hs] at h2
  cases h2

/-! ## Helper lemmas on pySplitlines and joinLines -/

lemma pySplitlines_newline (cs : List Char) :
    pySplitlines ('\n' :: cs) = [] :: pySplitlines cs := rfl

lemma pySplitlines_crlf (cs : List Char) :
    pySplitlines ('\r' :: '\n' :: cs) = [] :: pySplitlines cs := rfl

lemma pySplitlines_cr_cons (c : Char) (cs : List Char) (h : c ≠ '\n') :
    pySplitlines ('\r' :: c :: cs) = [] :: pySplitlines (c :: cs) := by
  simp [pySplitlines, h]

lemma pySplitlines_other (c : Char) (cs : List Char) (h1 : c ≠ '\n') (h2 : c ≠ '\r') :
    pySplitlines (c :: cs) =
      (match pySplitlines cs with
       | [] => [[c]]
       | l :: ls => (c :: l) :: ls) := by
  simp [pySplitlines, h1, h2]

lemma pySplitlines_no_newline_aux :
    ∀ (n : Nat) (x : List Char), x.length ≤ n →
      ∀ l ∈ pySplitlines x, ('\n' ∉ l ∧ '\r' ∉ l) := by
  intro n
  induction n with
  | zero =>
    intro x hx l hl
    rw [List.length_eq_zero.mp (Nat.le_zero.mp hx)] at hl
    simp [pySplitlines] at hl
  | succ n ih =>
    intro x hx l hl
    cases x with
    | nil => simp [pySplitlines] at hl
    | cons c cs =>
      have hcs : cs.length ≤ n := by
        rw [List.length_cons] at hx
        omega
      by_cases h1 : c = '\n'
      · subst h1
        rw [pySplitlines_newline] at hl
        rcases List.mem_cons.mp hl with rfl | h
        · exact ⟨by simp, by simp⟩
        · exact ih cs hcs l h
      · by_cases h2 : c = '\r'
        · subst h2
          cases cs with
          | nil =>
            have he : pySplitlines ['\r'] = [[]] := rfl
            rw [he] at hl
            rcases List.mem_cons.mp hl with rfl | h
            · exact ⟨by simp, by simp⟩
            · simp at h
          | cons d ds =>
            by_cases hd : d = '\n'
            · subst hd
              rw [pySplitlines_crlf] at hl
              rcases List.mem_cons.mp hl with rfl | h
              · exact ⟨by simp, by simp⟩
              · refine ih ds ?_ l h
                rw [List.length_cons] at hcs
                omega
            · rw [pySplitlines_cr_cons d ds hd] at hl
              rcases List.mem_cons.mp hl with rfl | h
              · exact ⟨by simp, by simp⟩
              · exact ih (d :: ds) hcs l h
        · rw [pySplitlines_other c cs h1 h2] at hl
          cases hsp : pySplitlines cs with
          | nil =>
            rw [hsp] at hl
            simp only [List.mem_singleton] at hl
            subst hl
            constructor
            · simp only [List.mem_singleton]
              exact fun e => h1 e.symm
            · simp only [List.mem_singleton]
              exact fun e => h2 e.symm
          | cons l0 ls0 =>
            rw [hsp] at hl
            rcases List.mem_cons.mp hl with rfl | h
            · have hmem : l0 ∈ pySplitlines cs := by
                rw [hsp]; exact List.mem_cons_self _ _
              have h0 := ih cs hcs l0 hmem
              constructor
              · intro hm
                rcases List.mem_cons.mp hm with e | e
                · exact h1 e.symm
                · exact h0.1 e
              · intro hm
                rcases List.mem_cons.mp hm with e | e
                · exact h2 e.symm
                · exact h0.2 e
            · refine ih cs hcs l ?_
              rw [hsp]
              exact List.mem_cons_of_mem _ h

lemma pySplitlines_no_newline (x : List Char) :
    ∀ l ∈ pySplitlines x, ('\n' ∉ l ∧ '\r' ∉ l) :=
  pySplitlines_no_newline_aux x.length x (le_refl _)

lemma pySplitlines_append_newline (l rest : List Char)
    (h : ∀ c ∈ l, c ≠ '\n' ∧ c ≠ '\r') :
    pySplitlines (l ++ '\n' :: rest) = l :: pySplitlines rest := by
  induction l with
  | nil => rw [List.nil_append, pySplitlines_newline]
  | cons c l ih =>
    have hc := h c (List.mem_cons_self c l)
    rw [List.cons_append, pySplitlines_other c _ hc.1 hc.2,
      ih (fun d hd => h d (List.mem_cons_of_mem c hd))]

lemma pySplitlines_single (l : List Char) (hne : l ≠ [])
    (h : ∀ c ∈ l, c ≠ '\n' ∧ c ≠ '\r') : pySplitlines l = [l] := by
  induction l with
  | nil => exact absurd rfl hne
  | cons c l ih =>
    have hc := h c (List.mem_cons_self c l)
    rw [pySplitlines_other c l hc.1 hc.2]
    by_cases hl : l = []
    · subst hl; rfl
    · rw [ih hl (fun d hd => h d (List.mem_cons_of_mem c hd))]

lemma joinLines_cons₂ (l l2 : List Char) (ls : List (List Char)) :
    joinLines (l :: l2 :: ls) = l ++ '\n' :: joinLines (l2 :: ls) := rfl

lemma pySplitlines_joinLines (ls : List (List Char))
    (h : ∀ l ∈ ls, l ≠ [] ∧ ∀ c ∈ l, c ≠ '\n' ∧ c ≠ '\r') :
    pySplitlines (joinLines ls) = ls := by
  induction ls with
  | nil => rfl
  | cons l ls ih =>
    cases ls with
    | nil =>
      have hl := h l (List.mem_cons_self l [])
      exact pySplitlines_single l hl.1 hl.2
    | cons l2 ls2 =>
      rw [joinLines_cons₂,
        pySplitlines_append_newline l _ (h l (List.mem_cons_self l _)).2,
        ih (fun x hx => h x (List.mem_cons_of_mem l hx))]

lemma joinLines_ne_nil (l : List Char) (ls : List (List Char)) (hl : l ≠ []) :
    joinLines (l :: ls) ≠ [] := by
  cases ls with
  | nil => exact hl
  | cons l2 ls2 =>
    rw [joinLines_cons₂]
    intro h
    rcases List.append_eq_nil.mp h with ⟨_, h2⟩
    cases h2

/-! ## Helper lemmas on bulletizeLines and normalize_summary -/

lemma bulletizeLines_cons (line : List Char) (rest : List (List Char)) :
    bulletizeLines (line :: rest) =
      (if pyStrip line = [] then bulletizeLines rest
       else if toLowerL (pyStrip line) = ("summary:").toList then
         headingLine :: bulletizeLines rest
       else if (pyStrip line).head? = some '-' then pyStrip line :: bulletizeLines rest
       else ('-' :: ' ' :: lstripDashSpace (pyStrip line)) :: bulletizeLines rest) := rfl

lemma bulletizeLines_shape :
    ∀ (ls : List (List Char)) (l : List Char), l ∈ bulletizeLines ls →
      l ≠ [] ∧ (l = headingLine ∨ l.head? = some '-') := by
  intro ls
  induction ls with
  | nil => intro l hl; simp [bulletizeLines] at hl
  | cons line rest ih =>
    intro l hl
    rw [bulletizeLines_cons] at hl
    by_cases h1 : pyStrip line = []
    · rw [if_pos h1] at hl; exact ih l hl
    · rw [if_neg h1] at hl
      by_cases h2 : toLowerL (pyStrip line) = ("summary:").toList
      · rw [if_pos h2] at hl
        rcases List.mem_cons.mp hl with rfl | h
        · exact ⟨by decide, Or.inl rfl⟩
        · exact ih l h
      · rw [if_neg h2] at hl
        by_cases h3 : (pyStrip line).head? = some '-'
        · rw [if_pos h3] at hl
          rcases List.mem_cons.mp hl with rfl | h
          · exact ⟨h1, Or.inr h3⟩
          · exact ih l h
        · rw [if_neg h3] at hl
          rcases List.mem_cons.mp hl with rfl | h
          · exact ⟨by simp, Or.inr rfl⟩
          · exact ih l h

lemma bulletizeLines_no_newline :
    ∀ (ls : List (List Char)), (∀ l ∈ ls, '\n' ∉ l ∧ '\r' ∉ l) →
      ∀ l ∈ bulletizeLines ls, '\n' ∉ l ∧ '\r' ∉ l := by
  intro ls
  induction ls with
  | nil => intro _ l hl; simp [bulletizeLines] at hl
  | cons line rest ih =>
    intro hin l hl
    have hline := hin line (List.mem_cons_self _ _)
    have hrest : ∀ x ∈ rest, '\n' ∉ x ∧ '\r' ∉ x :=
      fun x hx => hin x (List.mem_cons_of_mem _ hx)
    have hstr : '\n' ∉ pyStrip line ∧ '\r' ∉ pyStrip line :=
      ⟨fun hm => hline.1 (mem_of_mem_pyStrip _ _ hm),
       fun hm => hline.2 (mem_of_mem_pyStrip _ _ hm)⟩
    rw [bulletizeLines_cons] at hl
    by_cases h1 : pyStrip line = []
    · rw [if_pos h1] at hl; exact ih hrest l hl
    · rw [if_neg h1] at hl
      by_cases h2 : toLowerL (pyStrip line) = ("summary:").toList
      · rw [if_pos h2] at hl
        rcases List.mem_cons.mp hl with rfl | h
        · exact ⟨by decide, by decide⟩
        · exact ih hrest l h
      · rw [if_neg h2] at hl
        by_cases h3 : (pyStrip line).head? = some '-'
        · rw [if_pos h3] at hl
          rcases List.mem_cons.mp hl with rfl | h
          · exact hstr
          · exact ih hrest l h
        · rw [if_neg h3] at hl
          rcases List.mem_cons.mp hl with rfl | h
          · constructor
            · intro hm
              simp only [List.mem_cons] at hm
              rcases hm with e | e | hm2
              · exact absurd e (by decide)
              · exact absurd e (by decide)
              · exact hstr.1 (mem_of_mem_dropWhile _ _ _ hm2)
            · intro hm
              simp only [List.mem_cons] at hm
              rcases hm with e | e | hm2
              · exact absurd e (by decide)
              · exact absurd e (by decide)
              · exact hstr.2 (mem_of_mem_dropWhile _ _ _ hm2)
          · exact ih hrest l h

lemma pySplitlines_head_cons (t : List Char) (c : Char)
    (h : t.head? = some c) (h1 : c ≠ '\n') (h2 : c ≠ '\r') :
    ∃ l2 ls2, pySplitlines t = (c :: l2) :: ls2 := by
  cases t with
  | nil => cases h
  | cons d ds =>
    have hdc : d = c := by simpa using h
    subst hdc
    rw [pySplitlines_other d ds h1 h2]
    cases hds : pySplitlines ds with
    | nil => exact ⟨[], [], rfl⟩
    | cons l ls => exact ⟨l, ls, rfl⟩

lemma bulletize_splitlines_ne_nil (t : List Char) (c : Char)
    (ht : t.head? = some c) (hc : pyIsSpace c = false) :
    bulletizeLines (pySplitlines t) ≠ [] := by
  have h1 : c ≠ '\n' := by intro e; subst e; exact absurd hc (by decide)
  have h2 : c ≠ '\r' := by intro e; subst e; exact absurd hc (by decide)
  obtain ⟨l2, ls2, he⟩ := pySplitlines_head_cons t c ht h1 h2
  rw [he, bulletizeLines_cons]
  have hs : pyStrip (c :: l2) ≠ [] :=
    pyStrip_ne_nil_of_mem _ c (List.mem_cons_self _ _) hc
  rw [if_neg hs]
  by_cases hA : toLowerL (pyStrip (c :: l2)) = ("summary:").toList
  · rw [if_pos hA]; exact List.cons_ne_nil _ _
  · rw [if_neg hA]
    by_cases hB : (pyStrip (c :: l2)).head? = some '-'
    · rw [if_pos hB]; exact List.cons_ne_nil _ _
    · rw [if_neg hB]; exact List.cons_ne_nil _ _

lemma joinLines_bulletize_ne_nil (t : List Char) (c : Char)
    (ht : t.head? = some c) (hc : pyIsSpace c = false) :
    joinLines (bulletizeLines (pySplitlines t)) ≠ [] := by
  cases hb : bulletizeLines (pySplitlines t) with
  | nil => exact absurd hb (bulletize_splitlines_ne_nil t c ht hc)
  | cons x xs =>
    have hx : x ∈ bulletizeLines (pySplitlines t) := by
      rw [hb]; exact List.mem_cons_self _ _
    exact joinLines_ne_nil x xs (bulletizeLines_shape _ x hx).1

lemma head_of_pyStrip_ne_nil (s : List Char) (h : pyStrip s ≠ []) :
    ∃ c, (pyStrip s).head? = some c ∧ pyIsSpace c = false := by
  cases hl : pyStrip s with
  | nil => exact absurd hl h
  | cons a r =>
    have h1 : (pyStrip s).head? = some a := by rw [hl]; rfl
    exact ⟨a, rfl, head_pyStrip s a h1⟩

lemma normalize_summary_ne_nil (s : List Char) : normalize_summary s ≠ [] := by
  rw [normalize_summary]
  by_cases h : pyStrip s = []
  · rw [if_pos h]; decide
  · rw [if_neg h]
    obtain ⟨c, hh, hc⟩ := head_of_pyStrip_ne_nil s h
    rw [withHeading]
    by_cases hw : ((("summary").toList).isPrefixOf (toLowerL (pyStrip s))) = true
    · rw [if_pos hw]
      exact joinLines_bulletize_ne_nil (pyStrip s) c hh hc
    · rw [if_neg hw]
      exact joinLines_bulletize_ne_nil _ 'S' rfl (by decide)

lemma normalize_lines_shape (s l : List Char)
    (hl : l ∈ pySplitlines (normalize_summary s)) :
    pyStrip l ≠ [] ∧ (l = headingLine ∨ l.head? = some '-') := by
  by_cases h : pyStrip s = []
  · rw [normalize_summary, if_pos h] at hl
    have he : pySplitlines (("Summary:\n- N/A").toList) =
        [("Summary:").toList, ("- N/A").toList] := by decide
    rw [he] at hl
    rcases List.mem_cons.mp hl with rfl | hl2
    · exact ⟨by decide, Or.inl rfl⟩
    · rcases List.mem_cons.mp hl2 with rfl | hl3
      · exact ⟨by decide, Or.inr rfl⟩
      · simp at hl3
  · rw [normalize_summary, if_neg h] at hl
    have hlines : ∀ x ∈ pySplitlines (withHeading (pyStrip s)), '\n' ∉ x ∧ '\r' ∉ x :=
      pySplitlines_no_newline _
    have hgood : ∀ x ∈ bulletizeLines (pySplitlines (withHeading (pyStrip s))),
        x ≠ [] ∧ ∀ c ∈ x, c ≠ '\n' ∧ c ≠ '\r' := by
      intro x hx
      have hsh := bulletizeLines_shape _ x hx
      have hnn := bulletizeLines_no_newline _ hlines x hx
      exact ⟨hsh.1, fun c hc => ⟨fun e => hnn.1 (e ▸ hc), fun e => hnn.2 (e ▸ hc)⟩⟩
    rw [pySplitlines_joinLines _ hgood] at hl
    have hsh := bulletizeLines_shape _ l hl
    refine ⟨?_, hsh.2⟩
    rcases hsh.2 with rfl | hd
    · decide
    · cases l with
      | nil => cases hd
      | cons a r =>
        obtain rfl : a = '-' := by simpa using hd
        exact pyStrip_ne_nil_of_mem _ '-' (List.mem_cons_self _ _) (by decide)

lemma split_summary_answer_fst_ne_nil (s : List Char) :
    (split_summary_answer s).1 ≠ [] := by
  unfold split_summary_answer
  cases hf : pyFind (("answer:").toList) (toLowerL s) with
  | none => exact normalize_summary_ne_nil s
  | some i => exact normalize_summary_ne_nil _

/-! ## Helper lemmas on pyFind -/

lemma pyFind_nil (pat : List Char) :
    pyFind pat [] = if pat.isPrefixOf ([] : List Char) then some 0 else none := rfl

lemma pyFind_cons (pat : List Char) (c : Char) (cs : List Char) :
    pyFind pat (c :: cs) =
      if pat.isPrefixOf (c :: cs) then some 0 else (pyFind pat cs).map (· + 1) := rfl

lemma pyFind_eq_some (pat s : List Char) (i : Nat) (h : pyFind pat s = some i) :
    pat.isPrefixOf (s.drop i) = true ∧
      ∀ j, j < i → pat.isPrefixOf (s.drop j) = false := by
  induction s generalizing i with
  | nil =>
    rw [pyFind_nil] at h
    by_cases hp : pat.isPrefixOf ([] : List Char) = true
    · rw [if_pos hp] at h
      obtain rfl : (0 : Nat) = i := by simpa using h
      exact ⟨by simpa [List.drop_nil] using hp, fun j hj => absurd hj (Nat.not_lt_zero j)⟩
    · rw [if_neg hp] at h; cases h
  | cons c cs ih =>
    rw [pyFind_cons] at h
    by_cases hp : pat.isPrefixOf (c :: cs) = true
    · rw [if_pos hp] at h
      obtain rfl : (0 : Nat) = i := by simpa using h
      exact ⟨by simpa using hp, fun j hj => absurd hj (Nat.not_lt_zero j)⟩
    · rw [if_neg hp] at h
      cases hf : pyFind pat cs with
      | none => rw [hf] at h; cases h
      | some k =>
        rw [hf] at h
        obtain rfl : k + 1 = i := by simpa using h
        obtain ⟨h1, h2⟩ := ih k hf
        refine ⟨by simpa [List.drop_succ_cons] using h1, ?_⟩
        intro j hj
        cases j with
        | zero => simpa using Bool.eq_false_iff.mpr hp
        | succ j =>
          rw [List.drop_succ_cons]
          exact h2 j (by omega)

lemma pyFind_eq_none (pat s : List Char) (h : pyFind pat s = none) :
    ∀ i, pat.isPrefixOf (s.drop i) = false := by
  induction s with
  | nil =>
    rw [pyFind_nil] at h
    by_cases hp : pat.isPrefixOf ([] : List Char) = true
    · rw [if_pos hp] at h; cases h
    · intro i
      rw [List.drop_nil]
      exact Bool.eq_false_iff.mpr hp
  | cons c cs ih =>
    rw [pyFind_cons] at h
    by_cases hp : pat.isPrefixOf (c :: cs) = true
    · rw [if_pos hp] at h; cases h
    · rw [if_neg hp] at h
      have hf : pyFind pat cs = none := Option.map_eq_none'.mp h
      intro i
      cases i with
      | zero => simpa using Bool.eq_false_iff.mpr hp
      | succ i =>
        rw [List.drop_succ_cons]
        exact ih hf i

/-! ## Claim theorems for the summarization parser -/

/-- C1: the summarization response parser splits on the first
case-insensitive occurrence of the literal answer-colon substring; with no
occurrence the whole normalized reply is the summary and the answer is the
N/A sentinel; with a first occurrence at index i the normalized text
before i is the summary and the text after the seven-character marker,
trimmed, is the answer, an empty trimmed answer replaced by the
sentinel. -/
theorem split_summary_answer_spec (s : List Char) :
    ((∀ i, (("answer:").toList).isPrefixOf ((toLowerL s).drop i) = false) →
        split_summary_answer s = (normalize_summary s, ("N/A").toList)) ∧
    (∀ i, (("answer:").toList).isPrefixOf ((toLowerL s).drop i) = true →
      (∀ j, j < i → (("answer:").toList).isPrefixOf ((toLowerL s).drop j) = false) →
        split_summary_answer s =
          (normalize_summary (pyStrip (s.take i)),
            if pyStrip (s.drop (i + 7)) = [] then ("N/A").toList
            else pyStrip (s.drop (i + 7)))) := by
  constructor
  · intro hall
    unfold split_summary_answer
    cases hf : pyFind (("answer:").toList) (toLowerL s) with
    | none => rfl
    | some i =>
      have h1 := (pyFind_eq_some _ _ i hf).1
      rw [hall i] at h1
      cases h1
  · intro i hi hmin
    have hf : pyFind (("answer:").toList) (toLowerL s) = some i := by
      cases hf : pyFind (("answer:").toList) (toLowerL s) with
      | none =>
        have h0 := pyFind_eq_none _ _ hf i
        rw [hi] at h0
        cases h0
      | some k =>
        obtain ⟨h1, h2⟩ := pyFind_eq_some _ _ k hf
        rcases lt_trichotomy k i with hlt | heq | hgt
        · rw [hmin k hlt] at h1; cases h1
        · rw [heq]
        · rw [h2 i hgt] at hi; cases hi
    unfold split_summary_answer
    rw [hf]

/-- Witness for C1 at a concrete reply whose marker sits at index zero. -/
theorem split_summary_answer_spec_witness :
    split_summary_answer (("Answer: hi").toList) =
      (("Summary:\n- N/A").toList, ("hi").toList) := by
  rw [(split_summary_answer_spec (("Answer: hi").toList)).2 0 (by decide)
    (fun j hj => absurd hj (Nat.not_lt_zero j))]
  decide

/-- C2: summary normalization trims its input, maps an all-whitespace
input to the canonical heading plus single N/A bullet, prepends a heading
line when the trimmed input does not already start with the heading token
case-insensitively, bulletizes every line of the result, and on the
concrete three-bullet reply with an answer marker produces the heading
with three bullets and the answer Paris. -/
theorem normalize_summary_spec :
    (∀ s, normalize_summary s = normalize_summary (pyStrip s)) ∧
    (∀ s, pyStrip s = [] → normalize_summary s = ("Summary:\n- N/A").toList) ∧
    (∀ s, pyStrip s ≠ [] →
      (("summary").toList).isPrefixOf (toLowerL (pyStrip s)) = false →
      ∃ rest, normalize_summary s = ("Summary:").toList ++ '\n' :: rest) ∧
    (∀ s l, l ∈ pySplitlines (normalize_summary s) →
      l = ("Summary:").toList ∨ l.head? = some '-') ∧
    split_summary_answer (("- Point one\n- Point two\n- Point three\nAnswer: Paris").toList) =
      (("Summary:\n- Point one\n- Point two\n- Point three").toList, ("Paris").toList) := by
  refine ⟨?_, ?_, ?_, ?_, by decide⟩
  · intro s
    rw [normalize_summary, normalize_summary, pyStrip_idem]
  · intro s h
    rw [normalize_summary, if_pos h]
  · intro s h hw
    rw [normalize_summary, if_neg h, withHeading,
      if_neg (fun hcon => by rw [hw] at hcon; cases hcon)]
    obtain ⟨c, hh, hc⟩ := head_of_pyStrip_ne_nil s h
    rw [pySplitlines_append_newline (("Summary:").toList) (pyStrip s) (by decide),
      bulletizeLines_cons, if_neg (by decide), if_pos (by decide)]
    cases hb : bulletizeLines (pySplitlines (pyStrip s)) with
    | nil => exact absurd hb (bulletize_splitlines_ne_nil (pyStrip s) c hh hc)
    | cons x xs => exact ⟨joinLines (x :: xs), rfl⟩
  · intro s l hl
    exact (normalize_lines_shape s l hl).2

/-- Witness for C2 at a concrete all-whitespace summary section. -/
theorem normalize_summary_spec_witness :
    normalize_summary ((" ").toList) = ("Summary:\n- N/A").toList :=
  normalize_summary_spec.2.1 ((" ").toList) (by decide)

/-- C10: every line of a normalized summary is non-blank, and is either
exactly the heading line or starts with the bullet character. -/
theorem normalize_summary_no_blank_lines (s l : List Char)
    (hl : l ∈ pySplitlines (normalize_summary s)) :
    pyStrip l ≠ [] ∧ (l = ("Summary:").toList ∨ l.head? = some '-') :=
  normalize_lines_shape s l hl

/-- Witness for C10 at a concrete input and output line. -/
theorem normalize_summary_no_blank_lines_witness :
    pyStrip (("- hi").toList) ≠ [] ∧
      ((("- hi").toList) = ("Summary:").toList ∨ (("- hi").toList).head? = some '-') :=
  normalize_summary_no_blank_lines (("hi").toList) (("- hi").toList) (by decide)

/-! ## Claim theorems for the summarization client and transcription -/

/-- C7: a reply that is empty after trimming raises the summarization
failure condition, and a successful summarization never carries an
empty-string summary. -/
theorem summarize_empty_reply_fails :
    (∀ m reply, pyStrip (reply.getD []) = [] →
      summarize_handle_reply m reply =
        .error (.failed (("Summarizer returned empty response").toList))) ∧
    (∀ m reply r, summarize_handle_reply m reply = .ok r → r.summary ≠ []) := by
  constructor
  · intro m reply h
    rw [summarize_handle_reply, if_pos h]
  · intro m reply r h
    rw [summarize_handle_reply] at h
    by_cases hs : pyStrip (reply.getD []) = []
    · rw [if_pos hs] at h; cases h
    · rw [if_neg hs] at h
      injection h with h2
      subst h2
      exact split_summary_answer_fst_ne_nil _

/-- Witness for C7 at a concrete whitespace-only reply. -/
theorem summarize_empty_reply_fails_witness :
    summarize_handle_reply (("llama3").toList) (some (("  \n").toList)) =
      .error (.failed (("Summarizer returned empty response").toList)) :=
  summarize_empty_reply_fails.1 (("llama3").toList) (some (("  \n").toList)) (by decide)

/-- C3 counterexample: the cloud variant returns a whitespace-only
transcript as a successful result instead of raising, because its guard
is a truthiness test that does not strip. -/
theorem openai_whitespace_transcript_counterexample :
    openai_transcribe_finish (some ((" ").toList)) none =
      .ok ⟨(" ").toList, none⟩ ∧ pyStrip ((" ").toList) = [] := by
  constructor
  · rfl
  · decide

/-- C3 amended: the local variant raises exactly on text that is empty
after stripping and only ever returns non-empty stripped text, while the
cloud variant raises exactly on missing or empty text and passes any
other text through unchanged, including whitespace-only text. -/
theorem transcribe_empty_text_handling :
    (∀ text lang, pyStrip (text.getD []) = [] →
      whisper_local_finish text lang =
        .error (.failed (("Whisper returned empty transcription").toList))) ∧
    (∀ text lang r, whisper_local_finish text lang = .ok r →
      r.text = pyStrip (text.getD []) ∧ r.text ≠ []) ∧
    (∀ lang, openai_transcribe_finish none lang =
      .error (.failed (("No transcription text returned").toList))) ∧
    (∀ lang, openai_transcribe_finish (some []) lang =
      .error (.failed (("No transcription text returned").toList))) ∧
    (∀ t lang r, openai_transcribe_finish (some t) lang = .ok r →
      r.text = t ∧ t ≠ []) := by
  refine ⟨?_, ?_, fun lang => rfl, fun lang => rfl, ?_⟩
  · intro text lang h
    rw [whisper_local_finish, if_pos h]
  · intro text lang r h
    rw [whisper_local_finish] at h
    by_cases hs : pyStrip (text.getD []) = []
    · rw [if_pos hs] at h; cases h
    · rw [if_neg hs] at h
      injection h with h2
      subst h2
      exact ⟨rfl, hs⟩
  · intro t lang r h
    simp only [openai_transcribe_finish] at h
    by_cases ht : t = []
    · rw [if_pos ht] at h; cases h
    · rw [if_neg ht] at h
      injection h with h2
      subst h2
      exact ⟨rfl, ht⟩

/-- Witness for the amended C3 at a concrete whitespace-only local
transcript. -/
theorem transcribe_empty_text_handling_witness :
    whisper_local_finish (some ((" \t").toList)) none =
      .error (.failed (("Whisper returned empty transcription").toList)) :=
  transcribe_empty_text_handling.1 (some ((" \t").toList)) none (by decide)

/-! ## Claim theorems for the orchestrators -/

/-- C4 counterexample: in the web server a summarization failure aborts
the whole request with an HTTP 502 error, so the transcript and token
fields of that invocation are never delivered. -/
theorem web_summarization_failure_aborts :
    web_finish_response ⟨("hi").toList, some (("en").toList)⟩
      ⟨[1, 2], ("cl100k_base").toList⟩ (some (("true").toList))
      (.err (.failed (("boom").toList))) =
      .error ⟨502, ("boom").toList⟩ := rfl

/-- C4 amended: the CLI orchestrator treats a summarization failure as
recoverable, completing with exit code zero and only logging the error,
while the web orchestrator aborts the request with an HTTP 502 error
carrying the failure message. -/
theorem summarization_failure_recoverability (msg : List Char)
    (transcription : TranscriptionResult) (token_result : TokenizationResult) :
    cli_finish true (.err (.failed msg)) = ⟨0, none, some msg⟩ ∧
    (∀ outcome, (cli_finish true outcome).exitCode = 0) ∧
    web_finish_response transcription token_result (some (("true").toList))
      (.err (.failed msg)) = .error ⟨502, msg⟩ := by
  refine ⟨rfl, ?_, rfl⟩
  intro outcome
  cases outcome with
  | ok s => rfl
  | err e => cases e with | failed m => rfl

/-! ## Claim theorems for the tokenizer -/

/-- C5: tokenizer construction uses a supplied non-empty encoding name
verbatim, failing fast when the registry does not know it; otherwise it
resolves the model name, explicit or defaulted, and on an unknown model
falls back to the fixed cl100k-base encoding, so the model path never
fails for any model name as long as the registry knows the fallback
encoding. -/
theorem llm_tokenizer_init_spec (env : TiktokenEnv) (base : Encoding)
    (hbase : env.getEncoding (("cl100k_base").toList) = some base) :
    (∀ e, e ≠ [] → env.getEncoding e = none →
      ∀ model, llm_tokenizer_init env model (some e) = .error (.unknownEncoding e)) ∧
    (∀ e enc, e ≠ [] → env.getEncoding e = some enc →
      ∀ model, llm_tokenizer_init env model (some e) = .ok enc) ∧
    (∀ model target_enc,
      env.encodingForModel (pyOr model (("gpt-4o-mini").toList)) = some target_enc →
      llm_tokenizer_init env model none = .ok target_enc) ∧
    (∀ model,
      env.encodingForModel (pyOr model (("gpt-4o-mini").toList)) = none →
      llm_tokenizer_init env model none = .ok base) ∧
    (∀ model, ∃ enc, llm_tokenizer_init env model none = .ok enc) := by
  refine ⟨?_, ?_, ?_, ?_, ?_⟩
  · intro e he henc model
    simp only [llm_tokenizer_init]
    rw [if_neg he, henc]
  · intro e enc he henc model
    simp only [llm_tokenizer_init]
    rw [if_neg he, henc]
  · intro model enc henc
    simp only [llm_tokenizer_init, tokenizer_from_model]
    rw [henc]
  · intro model henc
    simp only [llm_tokenizer_init, tokenizer_from_model]
    rw [henc, hbase]
  · intro model
    cases henc : env.encodingForModel (pyOr model (("gpt-4o-mini").toList)) with
    | some enc =>
      exact ⟨enc, by simp only [llm_tokenizer_init, tokenizer_from_model]; rw [henc]⟩
    | none =>
      exact ⟨base, by simp only [llm_tokenizer_init, tokenizer_from_model]; rw [henc, hbase]⟩

/-- Witness for C5 at a concrete registry and an unknown model name. -/
theorem llm_tokenizer_init_spec_witness :
    llm_tokenizer_init tinyEnv (some (("gpt-unknown").toList)) none = .ok charEncoding :=
  (llm_tokenizer_init_spec tinyEnv charEncoding rfl).2.2.2.1
    (some (("gpt-unknown").toList)) rfl

/-- C6: under the external encoding contract, namely that decode inverts
encode and the empty text encodes to no tokens, the tokenizer wrapper
satisfies the round-trip law for every text, and the empty string encodes
to an empty token sequence of count zero rather than an error. -/
theorem tokenizer_roundtrip (tok : LLMTokenizer)
    (hround : ∀ t, tok.encoding.decodeFn (tok.encoding.encodeFn t) = t)
    (hempty : tok.encoding.encodeFn [] = []) :
    (∀ text, tok.decode ((tok.encode text).tokens) = text) ∧
    (tok.encode []).tokens = [] ∧ (tok.encode []).count = 0 := by
  refine ⟨fun text => hround text, hempty, ?_⟩
  simp [LLMTokenizer.encode, TokenizationResult.count, hempty]

/-- Witness for C6 at a concrete code-point encoding and a mixed-script
text with an emoji. -/
theorem tokenizer_roundtrip_witness :
    (mkLLMTokenizer charEncoding).decode
        (((mkLLMTokenizer charEncoding).encode (("héllo 🙂 мир").toList)).tokens) =
      ("héllo 🙂 мир").toList ∧
    ((mkLLMTokenizer charEncoding).encode []).count = 0 := by
  have h := tokenizer_roundtrip (mkLLMTokenizer charEncoding)
    (fun t => by
      simp only [mkLLMTokenizer, charEncoding, List.map_map]
      have hco : (Char.ofNat ∘ Char.toNat) = id := funext (fun c => Char.ofNat_toNat c)
      rw [hco, List.map_id])
    rfl
  exact ⟨h.1 _, h.2.2⟩

/-! ## Claim theorems for the audio path and provider selection -/

/-- C8: collapsing a multi-channel buffer whose channels agree at every
frame by channel averaging returns exactly the per-frame sample value; the
stereo case is the instance with two channels. -/
theorem monoCollapse_equal_channels (c : Nat) (hc : 0 < c) (vs : List ℚ) :
    monoCollapse (.twoD (vs.map (fun v => List.replicate c v))) = vs := by
  have hf : ∀ v : ℚ, frameMean (List.replicate c v) = v := by
    intro v
    rw [frameMean, List.sum_replicate, List.length_replicate, nsmul_eq_mul]
    exact mul_div_cancel_left₀ v (Nat.cast_ne_zero.mpr (Nat.pos_iff_ne_zero.mp hc))
  simp only [monoCollapse, List.map_map, Function.comp]
  induction vs with
  | nil => rfl
  | cons v vs ih => simp [hf v, ih]

/-- Witness for C8 at a concrete stereo buffer with equal channels. -/
theorem monoCollapse_equal_channels_witness :
    monoCollapse (.twoD (([(1 : ℚ)/2, -3/4]).map (fun v => List.replicate 2 v))) =
      [(1 : ℚ)/2, -3/4] :=
  monoCollapse_equal_channels 2 (by decide) [(1 : ℚ)/2, -3/4]

/-- C9: both provider-selection functions reject any provider identifier
other than the two supported ones with a configuration error whose
message names the invalid identifier, before any transcriber variant is
constructed. -/
theorem unsupported_provider_fails_fast (provider : List Char)
    (h1 : provider ≠ ("openai").toList) (h2 : provider ≠ ("whisper-local").toList) :
    (∀ om wm, build_transcriber provider om wm =
      .error (.unsupportedProvider (("Unsupported provider: ").toList ++ provider))) ∧
    (∀ om wm, select_transcriber provider om wm =
      .error ⟨400, ("Unsupported provider: ").toList ++ provider⟩) ∧
    (∃ t, t ++ provider = ("Unsupported provider: ").toList ++ provider) := by
  refine ⟨?_, ?_, ⟨("Unsupported provider: ").toList, rfl⟩⟩
  · intro om wm
    rw [build_transcriber, if_neg h1, if_neg h2]
  · intro om wm
    simp only [select_transcriber]
    rw [if_neg h1, if_neg h2]

/-- Witness for C9 at a concrete unsupported provider identifier. -/
theorem unsupported_provider_fails_fast_witness :
    build_transcriber (("bogus").toList) none (("base").toList) =
      .error (.unsupportedProvider (("Unsupported provider: bogus").toList)) := by
  rw [(unsupported_provider_fails_fast (("bogus").toList) (by decide) (by decide)).1
    none (("base").toList)]
  rfl

end Iota
